import Mathlib

/-!
Verification development for the retrieval/ranking core of the
knowledge-base backend: the sparse BM25 index (`backend/retrieval/bm25_index.py`),
the dense vector store (`backend/storage/vector_store.py`), reciprocal-rank
fusion (`backend/retrieval/hybrid_retriever.py`), the reranker
(`backend/retrieval/reranker.py`) and the query router
(`backend/routing/query_router.py`).

External collaborators (the `rank_bm25` library's idf table, ChromaDB's
nearest-neighbour ranking, the Groq chat-completion provider, the Cohere
rerank provider) are modelled as explicit oracle parameters: the repository's
own control flow around them is embedded faithfully.  Python floats are
modelled as exact rationals; every fact proved below is insensitive to the
rounding of the underlying float operations (it concerns filtering,
membership, ordering by comparison, or values that are exact in binary
floating point, such as 0).
-/

/-! ### Python string primitives

`str.lower`, `str.upper`, `str.strip`, `str.split()` word counting, and the
tokenizer regex `\b\w+\b` (maximal runs of word characters).  Inputs of
interest are ASCII, where `Char.toLower`/`Char.toUpper` agree with Python. -/

/-- Python's `\s` class (whitespace): space, tab, newline, carriage return,
vertical tab, form feed. -/
def pyWs (c : Char) : Bool :=
  c = ' ' || c = '\t' || c = '\n' || c = '\r' || c = '\x0b' || c = '\x0c'

/-- Python's `\w` class restricted to ASCII: alphanumeric or underscore. -/
def pyWordChar (c : Char) : Bool :=
  c.isAlphanum || c = '_'

/-- `str.lower()`. -/
def pyLower (s : String) : String :=
  ⟨s.toList.map Char.toLower⟩

/-- `str.upper()`. -/
def pyUpper (s : String) : String :=
  ⟨s.toList.map Char.toUpper⟩

/-- `str.strip(chars)` generalized over a character predicate: drop matching
characters from both ends. -/
def pyStripP (p : Char → Bool) (s : String) : String :=
  ⟨((s.toList.dropWhile p).reverse.dropWhile p).reverse⟩

/-- `str.strip()` (whitespace on both ends). -/
def pyStrip (s : String) : String :=
  pyStripP pyWs s

/-- The number of words of `str.split()` (split on whitespace runs, ignoring
leading/trailing whitespace): counts maximal non-whitespace runs. -/
def pyWordCount (s : String) : Nat :=
  (s.toList.foldl
    (fun (st : Nat × Bool) c =>
      if pyWs c then (st.1, false)
      else if st.2 then st else (st.1 + 1, true))
    (0, false)).1

/-- Step function collecting maximal runs of word characters (used right to
left by `foldr`): the first component is the run currently being built, the
second the completed runs to the right. -/
def wordRunStep (c : Char) (acc : List Char × List (List Char)) :
    List Char × List (List Char) :=
  if pyWordChar c then (c :: acc.1, acc.2)
  else ([], if acc.1 = [] then acc.2 else acc.1 :: acc.2)

/-- Maximal runs of word characters, in order: the matches of
`re.findall(r'\b\w+\b', s)`. -/
def wordRuns (s : List Char) : List (List Char) :=
  let r := s.foldr wordRunStep ([], [])
  if r.1 = [] then r.2 else r.1 :: r.2

/-! ### Sparse lexical index — `backend/retrieval/bm25_index.py` -/

/-- `BM25Index._tokenize`: lowercase, take the matches of `\b\w+\b`, and keep
only tokens longer than one character. -/
def pyTokenize (s : String) : List String :=
  ((wordRuns (pyLower s).toList).filter (fun w => 1 < w.length)).map
    (fun w => (⟨w⟩ : String))

/-- A chunk as stored in the BM25 corpus: a dict with a `"text"` entry and a
`"metadata"` dict that may carry `"user_id"` and `"source"` (absent keys are
`none`).  The remaining metadata entries (`source_type`, `chunk_index`, …) are
carried opaquely by the real dict and play no role in any indexed operation,
so they are not represented. -/
structure Chunk where
  text : String
  user_id : Option String
  source : Option String
deriving DecidableEq

/-- A search result: `chunk.copy()` with a `"bm25_score"` entry added. -/
structure BM25Result where
  chunk : Chunk
  bm25_score : ℚ
deriving DecidableEq

/-- The state of a `BM25Index`: the chunk corpus, its tokenized form, and
whether `self.bm25` holds a built `BM25Okapi` object. -/
structure BM25State where
  corpus : List Chunk
  tokenized : List (List String)
  hasBM25 : Bool
deriving DecidableEq

namespace BM25Index

/-- `BM25Index.build_from_chunks`: replace the corpus and tokenized corpus;
rebuild `self.bm25` only when the new tokenized corpus is non-empty (an empty
rebuild leaves the previous `self.bm25` object in place, recorded by `prev`). -/
def buildFromChunks (prev : Bool) (chunks : List Chunk) : BM25State :=
  let tokenized := chunks.map (fun c => pyTokenize c.text)
  { corpus := chunks
    tokenized := tokenized
    hasBM25 := if tokenized.isEmpty then prev else true }

/-- Whether a corpus word occurs in some tokenized document: membership in the
`BM25Okapi` vocabulary (`self.idf` has a key for exactly these words, and
`get_scores` uses `self.idf.get(q) or 0`). -/
def bm25Vocab (tokenized : List (List String)) (w : String) : Bool :=
  tokenized.any (fun d => d.contains w)

/-- One document's score in `BM25Okapi.get_scores` (k1 = 1.5, b = 0.75): each
query token `q` contributes `idf(q) * f*(k1+1) / (f + k1*(1-b+b*|d|/avgdl))`
where `f` is `q`'s frequency in the document and `idf(q)` is 0 for words
outside the corpus vocabulary.  The in-vocabulary idf values come from the
library's log-based statistics and are passed in as the oracle `idf`. -/
def bm25ScoreDoc (idf : String → ℚ) (vocab : String → Bool) (avgdl : ℚ)
    (qtoks : List String) (doc : List String) : ℚ :=
  (qtoks.map (fun q =>
    let f : ℚ := doc.count q
    let w : ℚ := if vocab q then idf q else 0
    w * (f * (3/2 + 1)) / (f + (3/2) * (1 - 3/4 + (3/4) * (doc.length : ℚ) / avgdl)))).sum

/-- `BM25Okapi.get_scores`: score every document of the tokenized corpus
against the query tokens; `avgdl` is the average document length. -/
def bm25GetScores (idf : String → ℚ) (tokenized : List (List String))
    (qtoks : List String) : List ℚ :=
  let avgdl : ℚ := ((tokenized.map (fun d => (d.length : ℚ))).sum) / (tokenized.length : ℚ)
  tokenized.map (bm25ScoreDoc idf (bm25Vocab tokenized) avgdl qtoks)

/-- The tenant skip test of the scoring loop in `BM25Index.search`:
`if user_id and chunk.get("metadata", {}).get("user_id") != user_id: continue`.
Note that a falsy `user_id` — `None` or the empty string — disables the
filter entirely. -/
def tenantSkip (uid : Option String) (c : Chunk) : Bool :=
  match uid with
  | none => false
  | some u => if u = "" then false else decide (c.user_id ≠ some u)

/-- The scoring loop of `BM25Index.search`: pair every corpus chunk with its
score, skipping chunks that fail the tenant test. -/
def bm25Scored (uid : Option String) : List Chunk → List ℚ → List (ℚ × Chunk)
  | [], _ => []
  | _ :: _, [] => []
  | c :: cs, s :: ss =>
      if tenantSkip uid c then bm25Scored uid cs ss
      else (s, c) :: bm25Scored uid cs ss

/-- `BM25Index.search`: return `[]` when no index is built, the corpus is
empty, or the tokenized query is empty; otherwise score all documents, keep
the tenant-filtered `(score, chunk)` pairs, stable-sort by score descending,
take the first `top_k`, and attach `bm25_score` to a copy of each chunk. -/
def search (idf : String → ℚ) (st : BM25State) (query : String) (top_k : Nat)
    (user_id : Option String) : List BM25Result :=
  if !st.hasBM25 || st.corpus.isEmpty then []
  else
    let qtoks := pyTokenize query
    if qtoks.isEmpty then []
    else
      let scores := bm25GetScores idf st.tokenized qtoks
      let scored := bm25Scored user_id st.corpus scores
      let sorted := scored.insertionSort (fun a b => b.1 ≤ a.1)
      (sorted.take top_k).map (fun p => ⟨p.2, p.1⟩)

/-- The removal test of `BM25Index.remove_by_source`: a chunk is dropped when
its source matches and (`user_id is None` or its user matches). -/
def removeDrop (source_name : String) (uid : Option String) (c : Chunk) : Bool :=
  decide (c.source = some source_name) &&
    (match uid with
     | none => true
     | some u => decide (c.user_id = some u))

/-- `BM25Index.remove_by_source`: filter the corpus, then rebuild via
`build_from_chunks`. -/
def removeBySource (st : BM25State) (source_name : String) (uid : Option String) :
    BM25State :=
  buildFromChunks st.hasBM25 (st.corpus.filter (fun c => !removeDrop source_name uid c))

end BM25Index

/-! ### Dense vector index — `backend/storage/vector_store.py`

ChromaDB is external: its embedding of the query is abstracted into a
distance oracle `dist`, and `collection.query` is modelled by its documented
contract — return entries of the collection satisfying the metadata `where`
filter, ranked by distance, at most `n_results` of them. -/

/-- An entry of the ChromaDB collection, as written by
`VectorStore.add_documents`: id, document text, and the metadata fields the
retrieval operations read (`user_id` is always set — it is the isolation
key — and `source` is always set, defaulting to "unknown"). -/
structure CEntry where
  id : String
  doc : String
  user_id : String
  source : String
deriving DecidableEq

/-- A dense search result as assembled by `VectorStore.search`. -/
structure VSResult where
  text : String
  user_id : String
  source : String
  similarity : ℚ
  id : String
deriving DecidableEq

namespace VectorStore

/-- `collection.query(..., where=..., n_results=n)`: the entries passing the
`where` filter, ordered by the provider's distance, truncated to `n`. -/
def chromaQuery (dist : CEntry → ℚ) (coll : List CEntry) (keep : CEntry → Bool)
    (n : Nat) : List CEntry :=
  ((coll.filter keep).insertionSort (fun a b => dist a ≤ dist b)).take n

/-- The `where` filter built by `VectorStore.search`: `{"user_id": user_id}`,
conjoined with `{"source": source_filter}` when a source filter is given. -/
def whereFilter (uid : String) (source_filter : Option String) (e : CEntry) : Bool :=
  decide (e.user_id = uid) &&
    (match source_filter with
     | none => true
     | some s => decide (e.source = s))

/-- The result record built for one returned entry: similarity is
`1 - distance` (cosine distance to similarity). -/
def mkResult (dist : CEntry → ℚ) (e : CEntry) : VSResult :=
  ⟨e.doc, e.user_id, e.source, 1 - dist e, e.id⟩

/-- `VectorStore.search`: query ChromaDB with the tenant (+ optional source)
filter, then keep only the results whose similarity is at least `threshold`. -/
def search (dist : CEntry → ℚ) (coll : List CEntry) (_query : String)
    (user_id : String) (top_k : Nat) (threshold : ℚ)
    (source_filter : Option String) : List VSResult :=
  let raw := chromaQuery dist coll (whereFilter user_id source_filter) top_k
  raw.filterMap (fun e =>
    if threshold ≤ 1 - dist e then some (mkResult dist e) else none)

end VectorStore

/-! ### Reciprocal-rank fusion — `backend/retrieval/hybrid_retriever.py` -/

/-- An input item to `HybridRetriever.reciprocal_rank_fusion`: a result dict,
of which fusion reads the `"id"` entry (possibly absent) and the `"text"`
entry. -/
structure RRFItem where
  id : Option String
  text : String
deriving DecidableEq

/-- `item_id = item.get("id", item.get("text", "")[:100])`. -/
def RRFItem.key (it : RRFItem) : String :=
  it.id.getD (it.text.take 100)

/-- One entry of the paired `scores` / `items` dicts of
`reciprocal_rank_fusion`, keyed by `item_id`: the accumulated score and the
item stored at the key's first occurrence. -/
structure RRFEntry where
  key : String
  score : ℚ
  item : RRFItem
deriving DecidableEq

/-- An output item of fusion: `items[item_id].copy()` with `"rrf_score"`
set. -/
structure FusedItem where
  item : RRFItem
  rrf_score : ℚ
deriving DecidableEq

namespace HybridRetriever

/-- One loop iteration of `reciprocal_rank_fusion` on the paired
`scores`/`items` dicts (represented as an insertion-ordered entry list, which
is exactly a Python dict's iteration semantics: updating an existing key
keeps its position and its first-stored item, a new key is appended): add `v`
at `key`, storing `it` if the key is new. -/
def rrfUpdate : List RRFEntry → String → ℚ → RRFItem → List RRFEntry
  | [], key, v, it => [⟨key, v, it⟩]
  | e :: es, key, v, it =>
      if e.key = key then ⟨e.key, e.score + v, e.item⟩ :: es
      else e :: rrfUpdate es key v it

/-- Process one result list starting at 1-based rank `rank`, contributing
`1 / (k + rank)` per item. -/
def rrfAddList (k : ℚ) : List RRFItem → Nat → List RRFEntry → List RRFEntry
  | [], _, es => es
  | it :: rest, rank, es =>
      rrfAddList k rest (rank + 1) (rrfUpdate es it.key (1 / (k + (rank : ℚ))) it)

/-- The accumulated entry table for a sequence of result lists (rank restarts
at 1 for each list). -/
def rrfEntries (k : ℚ) (result_lists : List (List RRFItem)) : List RRFEntry :=
  result_lists.foldl (fun es l => rrfAddList k l 1 es) []

/-- `HybridRetriever.reciprocal_rank_fusion`: accumulate contributions, sort
keys by score descending (Python's stable sort over the dict's insertion
order), and emit each stored item with its `rrf_score`. -/
def reciprocal_rank_fusion (result_lists : List (List RRFItem)) (k : ℚ) :
    List FusedItem :=
  let entries := rrfEntries k result_lists
  let sorted := entries.insertionSort (fun a b => b.score ≤ a.score)
  sorted.map (fun e => ⟨e.item, e.score⟩)

end HybridRetriever

/-! ### Reranker — `backend/retrieval/reranker.py`

The Cohere client is external; a call to `self.client.rerank` either raises
(timeout, quota, malformed response — the `.error` case, carrying the
message) or returns a list of `(index, relevance_score)` results. -/

/-- A document passed to `Reranker.rerank`: a dict with a `"text"` entry;
`rerank_score` / `original_rank` record whether the success path has set
those entries. -/
structure RDoc where
  text : String
  rerank_score : Option ℚ
  original_rank : Option Nat
deriving DecidableEq

namespace Reranker

/-- `Reranker.rerank`: when the reranker is unavailable or the input is
empty, return `documents[:top_k]` unchanged; otherwise call the provider and
on success map each `(index, score)` result back to a copy of the indexed
input document with `rerank_score`/`original_rank` set; on any provider error
fall back to `documents[:top_k]` unchanged. -/
def rerank (available : Bool) (resp : Except String (List (Nat × ℚ)))
    (documents : List RDoc) (top_k : Nat) : List RDoc :=
  if !available || documents.isEmpty then documents.take top_k
  else
    match resp with
    | .error _ => documents.take top_k
    | .ok results =>
        results.filterMap (fun r =>
          (documents[r.1]?).map (fun d =>
            { d with rerank_score := some r.2, original_rank := some r.1 }))

end Reranker

/-! ### Regular expressions — for the router's keyword pre-filter

A derivative-based matcher covering the constructs the router's patterns use:
character predicates, concatenation, alternation, Kleene star.  Patterns are
compiled case-insensitively by matching the lowercased input against
lowercase literals (every literal in the source patterns is lowercase).
`re.search` is encoded by wrapping an unanchored pattern side with
`(any char)*`; a `^`/`$` anchor simply omits the wrapper on that side. -/

inductive RE where
  | fail : RE
  | eps : RE
  | pred : (Char → Bool) → RE
  | cat : RE → RE → RE
  | alt : RE → RE → RE
  | star : RE → RE

namespace RE

/-- Whether the regex accepts the empty string. -/
def nullable : RE → Bool
  | .fail => false
  | .eps => true
  | .pred _ => false
  | .cat a b => a.nullable && b.nullable
  | .alt a b => a.nullable || b.nullable
  | .star _ => true

/-- Size-reducing concatenation. -/
def scat : RE → RE → RE
  | .fail, _ => .fail
  | _, .fail => .fail
  | .eps, b => b
  | a, .eps => a
  | a, b => .cat a b

/-- Size-reducing alternation. -/
def salt : RE → RE → RE
  | .fail, b => b
  | a, .fail => a
  | a, b => .alt a b

/-- Brzozowski derivative with respect to one character. -/
def deriv : RE → Char → RE
  | .fail, _ => .fail
  | .eps, _ => .fail
  | .pred p, c => if p c then .eps else .fail
  | .cat a b, c =>
      if a.nullable then salt (scat (a.deriv c) b) (b.deriv c)
      else scat (a.deriv c) b
  | .alt a b, c => salt (a.deriv c) (b.deriv c)
  | .star a, c => scat (a.deriv c) (.star a)

/-- Whether the regex matches the whole character list. -/
def accepts (r : RE) (s : List Char) : Bool :=
  (s.foldl deriv r).nullable

end RE

/-- A single literal character. -/
def rChr (c : Char) : RE := .pred (fun x => x = c)

/-- A literal string. -/
def rLit (s : String) : RE :=
  s.toList.foldr (fun c r => .cat (rChr c) r) .eps

/-- `r?`. -/
def rOpt (r : RE) : RE := .alt r .eps

/-- `\s`, `\s*`, `\s+`. -/
def rWs : RE := .pred pyWs
def rWsStar : RE := .star rWs
def rWsPlus : RE := .cat rWs rWsStar

/-- `.` (any character but newline), `.*`, `.+`. -/
def rDot : RE := .pred (fun c => c ≠ '\n')
def rDotStar : RE := .star rDot
def rDotPlus : RE := .cat rDot rDotStar

/-- Truly any character — used to encode `re.search`'s scan over positions. -/
def rAllStar : RE := .star (.pred (fun _ => true))

/-- The trailing class `[\s!?.]*` shared by the anchored patterns. -/
def rTailCls : RE := .star (.pred (fun c => pyWs c || c = '!' || c = '?' || c = '.'))

/-- n-ary alternation. -/
def rAlts : List RE → RE
  | [] => .fail
  | [r] => r
  | r :: rs => .alt r (rAlts rs)

/-- n-ary concatenation. -/
def rCats : List RE → RE
  | [] => .eps
  | [r] => r
  | r :: rs => .cat r (rCats rs)

/-- `re.search` on a pattern that is anchored on both sides (`^...$`). -/
def rExact (r : RE) : RE := r

/-- `re.search` on a pattern anchored only at the start (`^...`). -/
def rFromStart (r : RE) : RE := .cat r rAllStar

/-- `re.search` on an unanchored pattern: match anywhere. -/
def rAnywhere (r : RE) : RE := .cat rAllStar (.cat r rAllStar)

/-! ### Query router — `backend/routing/query_router.py` -/

namespace QueryRouter

/-- `GREETING_PATTERNS`, compiled. -/
def greetingRes : List RE :=
  [ rExact (rCats [
      rAlts [rLit "hi", rLit "hello", rLit "hey", rLit "howdy", rLit "greetings",
             rCats [rLit "good", rWsStar,
                    rAlts [rLit "morning", rLit "afternoon", rLit "evening"]]],
      rOpt (rCats [rWsPlus, rLit "there"]), rTailCls ]),
    rExact (rCats [
      rAlts [rLit "thanks", rCats [rLit "thank", rWsStar, rLit "you"],
             rLit "thx", rLit "ty"], rTailCls ]),
    rExact (rCats [
      rAlts [rLit "bye", rLit "goodbye", rCats [rLit "see", rWsStar, rLit "you"],
             rLit "later"], rTailCls ]),
    rExact (rCats [
      rAlts [rCats [rLit "how", rWsStar, rLit "are", rWsStar, rLit "you"],
             rCats [rLit "what", rOpt (rChr '\''), rLit "s", rWsStar, rLit "up"],
             rLit "sup"], rTailCls ]) ]

/-- `documents?`-style optional-plural literal. -/
def rPl (s : String) : RE := .cat (rLit s) (rOpt (rChr 's'))

/-- `META_PATTERNS`, compiled. -/
def metaRes : List RE :=
  [ rAnywhere (rCats [
      rAlts [rLit "what", rLit "which", rLit "list", rLit "show", rLit "display"],
      rDotStar,
      rAlts [rPl "document", rPl "file", rPl "source"],
      rDotStar,
      rAlts [rLit "have", rLit "uploaded", rLit "available", rLit "stored"] ]),
    rAnywhere (rCats [
      rAlts [rLit "what", rCats [rLit "how", rWsStar, rLit "many"]],
      rDotStar,
      rAlts [rPl "document", rPl "file"],
      rDotStar,
      rAlts [rCats [rLit "do", rWsStar, rLit "i"], rLit "i"],
      rWsStar, rLit "have" ]),
    rExact (rCats [
      rAlts [rLit "list", rLit "show"], rWsStar,
      rOpt (rCats [rLit "my", rWsStar]),
      rAlts [rPl "document", rPl "file", rPl "source"], rTailCls ]),
    rAnywhere (rCats [
      rLit "what", rWsStar, rAlts [rLit "can", rLit "do"], rWsStar,
      rLit "you", rWsStar, rAlts [rLit "do", rLit "know", rLit "have"] ]),
    rAnywhere (rCats [
      rAlts [rLit "your", rLit "the"], rWsStar, rLit "capabilities" ]) ]

/-- `SUMMARY_PATTERNS`, compiled. -/
def summaryRes : List RE :=
  [ rFromStart (rCats [rLit "summarize", rWsPlus]),
    rFromStart (rCats [
      rAlts [rLit "give", rLit "provide", rLit "create"], rWsStar,
      rOpt (rCats [rLit "me", rWsStar]), rOpt (rCats [rLit "a", rWsStar]),
      rLit "summary" ]),
    rFromStart (rCats [
      rOpt (rCats [rLit "what", rWsStar, rLit "is", rWsStar, rLit "the", rWsStar]),
      rAlts [rLit "main", rLit "key"], rWsStar,
      rAlts [rPl "point", rPl "idea", rPl "takeaway"] ]),
    rFromStart (rCats [rLit "tldr", rWsStar]),
    rAnywhere (rCats [
      rLit "summarize", rWsStar, rAlts [rLit "this", rLit "the", rLit "that"] ]) ]

/-- `COMPARISON_PATTERNS`, compiled. -/
def comparisonRes : List RE :=
  [ rAnywhere (rCats [
      rLit "compare", rWsPlus, rDotPlus, rWsPlus,
      rAlts [rLit "and", rLit "with", rLit "to", rCats [rLit "vs", rOpt (rChr '.')]],
      rWsPlus ]),
    rAnywhere (rCats [
      rAlts [rLit "difference", rLit "differences"], rWsStar,
      rAlts [rLit "between", rLit "of"] ]),
    rAnywhere (rCats [
      rAlts [rLit "how", rLit "what"], rDotStar,
      rAlts [rLit "different", rLit "similar", rLit "compare"] ]),
    rAnywhere (rCats [
      rDotPlus, rWsPlus, rLit "vs", rOpt (rChr '.'), rWsPlus, rDotPlus ]) ]

/-- `CLARIFICATION_PATTERNS`, compiled. -/
def clarificationRes : List RE :=
  [ rExact (rCats [
      rAlts [rLit "more", rPl "detail", rLit "explain", rLit "elaborate",
             rLit "continue"], rTailCls ]),
    rExact (rCats [
      rAlts [rLit "yes", rLit "no", rLit "ok", rLit "okay", rLit "sure",
             rLit "yep", rLit "nope"], rTailCls ]),
    rExact (rCats [
      rAlts [rLit "what", rLit "huh", rLit "hmm"], rTailCls ]) ]

/-- `pattern.search(query_clean)` over a compiled pattern list (patterns are
compiled with `re.IGNORECASE`; all their literals are lowercase, so this is
matching the lowercased input). -/
def matchAny (rs : List RE) (s : String) : Bool :=
  rs.any (fun r => r.accepts (pyLower s).toList)

end QueryRouter

/-- `RouteType` (`backend/routing/query_router.py`). -/
inductive RouteType where
  | KNOWLEDGE | META | GREETING | CLARIFICATION
  | OUT_OF_SCOPE | SUMMARY | COMPARISON | FOLLOW_UP
deriving DecidableEq

/-- `RouteResult`: classification outcome. -/
structure RouteResult where
  route_type : RouteType
  confidence : ℚ
  reasoning : Option String
  rewritten_query : Option String
deriving DecidableEq

namespace QueryRouter

/-- `QueryRouter._keyword_prefilter`: strip the query, try the pattern groups
in order (greeting, meta, summary, comparison), and try the clarification
patterns only for queries of at most two words. -/
def keywordPrefilter (query : String) : Option (RouteType × String) :=
  let q := pyStrip query
  if matchAny greetingRes q then some (.GREETING, "Keyword match: greeting pattern")
  else if matchAny metaRes q then some (.META, "Keyword match: meta/system query")
  else if matchAny summaryRes q then some (.SUMMARY, "Keyword match: summary request")
  else if matchAny comparisonRes q then some (.COMPARISON, "Keyword match: comparison request")
  else if pyWordCount q ≤ 2 && matchAny clarificationRes q then
    some (.CLARIFICATION, "Keyword match: vague/unclear query")
  else none

/-- `key in response` for strings: substring containment. -/
def strContains (hay needle : String) : Bool :=
  decide (List.IsInfix needle.toList hay.toList)

/-- `QueryRouter._parse_response`: strip and uppercase, try an exact match
against the route map (in its insertion order), then a substring match, and
default to `KNOWLEDGE`. -/
def parseResponse (resp : String) : RouteType :=
  let r := pyUpper (pyStrip resp)
  if r = "KNOWLEDGE" then .KNOWLEDGE
  else if r = "META" then .META
  else if r = "GREETING" then .GREETING
  else if r = "CLARIFICATION" then .CLARIFICATION
  else if r = "OUT_OF_SCOPE" then .OUT_OF_SCOPE
  else if r = "SUMMARY" then .SUMMARY
  else if r = "COMPARISON" then .COMPARISON
  else if r = "FOLLOW_UP" then .FOLLOW_UP
  else if strContains r "KNOWLEDGE" then .KNOWLEDGE
  else if strContains r "META" then .META
  else if strContains r "GREETING" then .GREETING
  else if strContains r "CLARIFICATION" then .CLARIFICATION
  else if strContains r "OUT_OF_SCOPE" then .OUT_OF_SCOPE
  else if strContains r "SUMMARY" then .SUMMARY
  else if strContains r "COMPARISON" then .COMPARISON
  else if strContains r "FOLLOW_UP" then .FOLLOW_UP
  else .KNOWLEDGE

/-- `QueryRouter._rewrite_query`: no client or no history means no rewrite;
a provider exception means no rewrite; otherwise strip the response and use
it only when it is non-empty and differs case-insensitively from the query.
The provider's chat-completion response (for the rewrite prompt built from
the formatted history) is the oracle `rewriteResp`; `.error` is a raised
exception. -/
def rewriteQuery (client : Bool) (rewriteResp : Except String String)
    (query : String) (chat_history : List (String × String)) : Option String :=
  if !client || chat_history.isEmpty then none
  else
    match rewriteResp with
    | .error _ => none
    | .ok content =>
        let r := pyStrip content
        if r ≠ "" ∧ pyLower r ≠ pyLower query then some r else none

/-- `raw.split("|", 1)` when `"|" in raw`: the characters before the first
bar and everything after it. -/
def breakAtBar : List Char → Option (List Char × List Char)
  | [] => none
  | c :: cs =>
      if c = '|' then some ([], cs)
      else (breakAtBar cs).map (fun p => (c :: p.1, p.2))

/-- `corrected.strip('"\'')`. -/
def pyStripQuotes (s : String) : String :=
  pyStripP (fun c => c = '"' || c = '\'') s

/-- `QueryRouter._classify_and_correct`: with no client (or on a provider
exception) fall back to `(KNOWLEDGE, None)`; otherwise parse the
`CATEGORY | corrected query` response, returning the corrected text only
when it differs case-insensitively from the query. -/
def classifyAndCorrect (client : Bool) (ccResp : Except String String)
    (query : String) : RouteType × Option String :=
  if !client then (.KNOWLEDGE, none)
  else
    match ccResp with
    | .error _ => (.KNOWLEDGE, none)
    | .ok content =>
        let raw := pyStrip content
        match breakAtBar raw.toList with
        | some p =>
            let category := pyUpper (pyStrip ⟨p.1⟩)
            let corrected := pyStripQuotes (pyStrip ⟨p.2⟩)
            let rt := parseResponse category
            if corrected ≠ "" ∧ pyLower corrected ≠ pyLower query then (rt, some corrected)
            else (rt, none)
        | none => (parseResponse (pyUpper raw), none)

/-- `QueryRouter.classify`: keyword pre-filter first (confidence 0.9, no
provider call); with no chat history a single classify+correct call
(confidence 0.5 when no client is configured); with history, rewrite first,
then degrade to `KNOWLEDGE`/0.5 if no client is configured, else classify the
(possibly rewritten) query via the provider, degrading to `KNOWLEDGE`/0.5 on
a provider exception.  The three provider responses are oracles; the model is
a total function — no path raises. -/
def classify (client : Bool) (rewriteResp ccResp clsResp : Except String String)
    (query : String) (chat_history : List (String × String)) : RouteResult :=
  match keywordPrefilter query with
  | some rt => ⟨rt.1, 9/10, some rt.2, none⟩
  | none =>
      if chat_history.isEmpty then
        let rc := classifyAndCorrect client ccResp query
        ⟨rc.1, if client then 1 else 1/2, some "Combined classify+correct", rc.2⟩
      else
        let rewritten := rewriteQuery client rewriteResp query chat_history
        if !client then
          ⟨.KNOWLEDGE, 1/2,
           some "No Groq API key available, defaulting to KNOWLEDGE", rewritten⟩
        else
          match clsResp with
          | .ok content =>
              ⟨parseResponse content, 1,
               some ("LLM classified as: " ++ content), rewritten⟩
          | .error e =>
              ⟨.KNOWLEDGE, 1/2,
               some ("Classification error: " ++ e ++ ", defaulting to KNOWLEDGE"),
               rewritten⟩

end QueryRouter

/-! ### Specification-side auxiliary definitions

Used only to state and prove properties; not part of the embedded code. -/

namespace HybridRetriever

/-- The score stored at `key` in an entry table (0 when absent). -/
def entryScore (es : List RRFEntry) (key : String) : ℚ :=
  ((es.find? (fun e => e.key == key)).map (fun e => e.score)).getD 0

/-- The total contribution `Σ 1/(k + rank)` of the occurrences of `key` in a
result list whose first element has rank `r`. -/
def rrfContrib (k : ℚ) (key : String) : List RRFItem → Nat → ℚ
  | [], _ => 0
  | it :: rest, r =>
      (if it.key = key then 1 / (k + (r : ℚ)) else 0) + rrfContrib k key rest (r + 1)

/-- The entry table produced by a single result list with pairwise-fresh
keys, starting at rank `r`: one entry per item, in order. -/
def rrfChain (k : ℚ) : List RRFItem → Nat → List RRFEntry
  | [], _ => []
  | it :: rest, r => ⟨it.key, 1 / (k + (r : ℚ)), it⟩ :: rrfChain k rest (r + 1)

end HybridRetriever

/-! ## Theorems -/

namespace BM25Index

theorem bm25Scored_mem {uid : Option String} {cs : List Chunk} {ss : List ℚ}
    {p : ℚ × Chunk} (h : p ∈ bm25Scored uid cs ss) :
    p.2 ∈ cs ∧ tenantSkip uid p.2 = false := by
  induction cs generalizing ss with
  | nil => simp [bm25Scored] at h
  | cons c cs ih =>
    cases ss with
    | nil => simp [bm25Scored] at h
    | cons s ss =>
      simp only [bm25Scored] at h
      by_cases hc : tenantSkip uid c
      · rw [if_pos hc] at h
        obtain ⟨h1, h2⟩ := ih h
        exact ⟨List.mem_cons_of_mem _ h1, h2⟩
      · rw [if_neg hc] at h
        rcases List.mem_cons.1 h with rfl | h
        · exact ⟨List.mem_cons_self _ _, by simpa using hc⟩
        · obtain ⟨h1, h2⟩ := ih h
          exact ⟨List.mem_cons_of_mem _ h1, h2⟩

theorem bm25Scored_length {uid : Option String} {cs : List Chunk} {ss : List ℚ}
    (h : ss.length = cs.length) :
    (bm25Scored uid cs ss).length = (cs.filter (fun c => !tenantSkip uid c)).length := by
  induction cs generalizing ss with
  | nil => cases ss <;> simp [bm25Scored]
  | cons c cs ih =>
    cases ss with
    | nil => simp at h
    | cons s ss =>
      simp only [bm25Scored, List.filter_cons]
      by_cases hc : tenantSkip uid c
      · rw [if_pos hc]
        simpa [hc] using ih (by simpa using h)
      · rw [if_neg hc]
        have hc' : tenantSkip uid c = false := by simpa using hc
        simp [hc', ih (by simpa using h)]

theorem search_mem {idf : String → ℚ} {st : BM25State} {query : String}
    {top_k : Nat} {uid : Option String} {r : BM25Result}
    (h : r ∈ search idf st query top_k uid) :
    r.chunk ∈ st.corpus ∧ tenantSkip uid r.chunk = false := by
  simp only [search] at h
  split at h
  · simp at h
  · split at h
    · simp at h
    · obtain ⟨p, hp, hpr⟩ := List.mem_map.1 h
      have hp1 : p ∈ (bm25Scored uid st.corpus
          (bm25GetScores idf st.tokenized (pyTokenize query))).insertionSort
          (fun a b => b.1 ≤ a.1) := List.take_subset _ _ hp
      have hp2 := (List.perm_insertionSort (fun a b : ℚ × Chunk => b.1 ≤ a.1) _).mem_iff.1 hp1
      have := bm25Scored_mem hp2
      rw [← hpr]
      exact this

theorem search_sorted (idf : String → ℚ) (st : BM25State) (query : String)
    (top_k : Nat) (uid : Option String) :
    List.Sorted (fun a b : BM25Result => b.bm25_score ≤ a.bm25_score)
      (search idf st query top_k uid) := by
  simp only [search]
  split
  · simp
  · split
    · simp
    · haveI : IsTotal (ℚ × Chunk) (fun a b => b.1 ≤ a.1) := ⟨fun a b => le_total b.1 a.1⟩
      haveI : IsTrans (ℚ × Chunk) (fun a b => b.1 ≤ a.1) :=
        ⟨fun _ _ _ hab hbc => le_trans hbc hab⟩
      have hs := List.sorted_insertionSort (fun a b : ℚ × Chunk => b.1 ≤ a.1)
        (bm25Scored uid st.corpus (bm25GetScores idf st.tokenized (pyTokenize query)))
      have ht : List.Sorted (fun a b : ℚ × Chunk => b.1 ≤ a.1)
          (((bm25Scored uid st.corpus
            (bm25GetScores idf st.tokenized (pyTokenize query))).insertionSort
            (fun a b => b.1 ≤ a.1)).take top_k) :=
        hs.sublist (List.take_sublist _ _)
      exact ht.map _ (fun a b hab => hab)

end BM25Index

/-- C10: with `user_id=None` the tenant filter in `BM25Index.search` is
skipped entirely: the scoring loop keeps every corpus chunk (it is exactly
`scores.zip(corpus)`), so chunks of every tenant are eligible to be scored
and returned — concretely, a search with `user_id=None` over a corpus holding
tenants "A" and "B" returns chunks of both tenants. -/
theorem c10_no_tenant_filter :
    (∀ (cs : List Chunk) (ss : List ℚ), BM25Index.bm25Scored none cs ss = ss.zip cs) ∧
    (BM25Index.search (fun _ => 1)
        (BM25Index.buildFromChunks false
          [⟨"apple apple", some "A", some "s1"⟩, ⟨"apple apple", some "B", some "s2"⟩])
        "apple" 10 none).map (fun r => r.chunk.user_id) = [some "A", some "B"] := by
  constructor
  · intro cs
    induction cs with
    | nil => intro ss; cases ss <;> simp [BM25Index.bm25Scored]
    | cons c cs ih =>
      intro ss
      cases ss with
      | nil => simp [BM25Index.bm25Scored]
      | cons s ss => simp [BM25Index.bm25Scored, BM25Index.tenantSkip, ih]
  · have h1 : pyTokenize "apple apple" = ["apple", "apple"] := by decide
    have h2 : pyTokenize "apple" = ["apple"] := by decide
    simp +decide [BM25Index.search, BM25Index.buildFromChunks, BM25Index.bm25GetScores,
      BM25Index.bm25ScoreDoc, BM25Index.bm25Vocab, BM25Index.bm25Scored,
      BM25Index.tenantSkip, List.insertionSort, List.orderedInsert, h1, h2]

namespace VectorStore

theorem search_shape {dist : CEntry → ℚ} {coll : List CEntry} {query : String}
    {uid : String} {top_k : Nat} {threshold : ℚ} {sf : Option String} {d : VSResult}
    (h : d ∈ search dist coll query uid top_k threshold sf) :
    ∃ e ∈ coll, whereFilter uid sf e = true ∧ d = mkResult dist e ∧
      threshold ≤ 1 - dist e := by
  simp only [search] at h
  obtain ⟨e, he, hfe⟩ := List.mem_filterMap.1 h
  have he1 : e ∈ (coll.filter (whereFilter uid sf)).insertionSort
      (fun a b => dist a ≤ dist b) := List.take_subset _ _ he
  have he2 := (List.perm_insertionSort (fun a b : CEntry => dist a ≤ dist b) _).mem_iff.1 he1
  obtain ⟨he3, he4⟩ := List.mem_filter.1 he2
  split at hfe
  · exact ⟨e, he3, he4, (Option.some_inj.1 hfe).symm, by assumption⟩
  · simp at hfe

end VectorStore

/-- C2: every result returned by the dense `VectorStore.search` has
`similarity >= threshold`, and any candidate whose similarity is below the
threshold is excluded from the returned list outright (its result record is
not in the output at all, i.e. it is dropped before any fusion, not merely
ranked lower). -/
theorem c2_threshold_floor (dist : CEntry → ℚ) (coll : List CEntry) (query : String)
    (uid : String) (top_k : Nat) (threshold : ℚ) (sf : Option String) :
    (∀ d ∈ VectorStore.search dist coll query uid top_k threshold sf,
        threshold ≤ d.similarity) ∧
    (∀ e : CEntry, 1 - dist e < threshold →
        VectorStore.mkResult dist e ∉
          VectorStore.search dist coll query uid top_k threshold sf) := by
  constructor
  · intro d hd
    obtain ⟨e, _, _, rfl, hthr⟩ := VectorStore.search_shape hd
    exact hthr
  · intro e hlt hmem
    obtain ⟨e', _, _, heq, hthr⟩ := VectorStore.search_shape hmem
    have : threshold ≤ 1 - dist e' := hthr
    have hsim : (VectorStore.mkResult dist e).similarity = 1 - dist e := rfl
    rw [heq] at hsim
    simp only [VectorStore.mkResult] at hsim
    exact absurd (hsim ▸ this) (not_le.mpr hlt)

/-- C2 witness: at a concrete collection and distance oracle, a candidate
with similarity 0 < threshold 1/2 is excluded from the returned results. -/
theorem c2_threshold_floor_witness :
    VectorStore.mkResult (fun _ => 1) ⟨"i1", "d1", "u", "s"⟩ ∉
      VectorStore.search (fun _ => 1) [⟨"i1", "d1", "u", "s"⟩] "q" "u" 5 (1/2) none :=
  (c2_threshold_floor (fun _ => 1) [⟨"i1", "d1", "u", "s"⟩] "q" "u" 5 (1/2) none).2
    ⟨"i1", "d1", "u", "s"⟩ (by norm_num)

/-- C1, counterexample: the claim fails for the (distinct) tenant pair
A = "" and B = "B".  The sparse tenant filter is the truthiness test
`if user_id and ...`, so a caller supplying the empty-string tenant id gets
the filter skipped and receives a chunk indexed under tenant "B". -/
theorem c1_tenant_isolation_counterexample :
    ("" : String) ≠ "B" ∧
    (BM25Index.search (fun _ => 1)
        (BM25Index.buildFromChunks false [⟨"apple apple", some "B", some "doc1"⟩])
        "apple" 10 (some "")).map (fun r => r.chunk.user_id) = [some "B"] := by
  refine ⟨by decide, ?_⟩
  have h1 : pyTokenize "apple apple" = ["apple", "apple"] := by decide
  have h2 : pyTokenize "apple" = ["apple"] := by decide
  simp +decide [BM25Index.search, BM25Index.buildFromChunks, BM25Index.bm25GetScores,
    BM25Index.bm25ScoreDoc, BM25Index.bm25Vocab, BM25Index.bm25Scored,
    BM25Index.tenantSkip, List.insertionSort, List.orderedInsert, h1, h2]

/-- C1, amended: for distinct tenant ids A ≠ B, a sparse `BM25Index.search`
under tenant A never returns a chunk indexed under tenant B **provided A is
non-empty** (the truthiness guard disables the filter for the empty string),
and a dense `VectorStore.search` under tenant A never returns a chunk indexed
under tenant B for every supplied A (the metadata `where` filter is an exact
equality). -/
theorem c1_tenant_isolation_amended (A B : String) (hAB : A ≠ B) :
    (∀ (idf : String → ℚ) (st : BM25State) (query : String) (top_k : Nat),
        A ≠ "" →
        ∀ r ∈ BM25Index.search idf st query top_k (some A),
          r.chunk.user_id ≠ some B) ∧
    (∀ (dist : CEntry → ℚ) (coll : List CEntry) (query : String) (top_k : Nat)
        (threshold : ℚ) (sf : Option String),
        ∀ d ∈ VectorStore.search dist coll query A top_k threshold sf,
          d.user_id ≠ B) := by
  constructor
  · intro idf st query top_k hA r hr
    have h := (BM25Index.search_mem hr).2
    simp only [BM25Index.tenantSkip, if_neg hA] at h
    have : r.chunk.user_id = some A := by
      by_contra hne
      simp [hne] at h
    rw [this]
    intro hBA
    exact hAB (Option.some_inj.1 hBA)
  · intro dist coll query top_k threshold sf d hd
    obtain ⟨e, _, hw, rfl, _⟩ := VectorStore.search_shape hd
    have he : e.user_id = A := by
      simp only [VectorStore.whereFilter, Bool.and_eq_true, decide_eq_true_eq] at hw
      exact hw.1
    simpa [VectorStore.mkResult, he] using fun h : A = B => hAB h

/-- C1 witness: at tenant pair ("a", "b") with a one-chunk corpus indexed
under "a", the chunk returned by the sparse search under "a" is not tenant
"b"'s. -/
theorem c1_tenant_isolation_witness :
    (⟨⟨"apple apple", some "a", some "s"⟩, 10/7⟩ : BM25Result).chunk.user_id ≠ some "b" := by
  have heval :
      BM25Index.search (fun _ => 1)
        (BM25Index.buildFromChunks false [⟨"apple apple", some "a", some "s"⟩])
        "apple" 10 (some "a")
      = [⟨⟨"apple apple", some "a", some "s"⟩, 10/7⟩] := by
    have h1 : pyTokenize "apple apple" = ["apple", "apple"] := by decide
    have h2 : pyTokenize "apple" = ["apple"] := by decide
    simp +decide [BM25Index.search, BM25Index.buildFromChunks, BM25Index.bm25GetScores,
      BM25Index.bm25ScoreDoc, BM25Index.bm25Vocab, BM25Index.bm25Scored,
      BM25Index.tenantSkip, List.insertionSort, List.orderedInsert, h1, h2]
    norm_num
  exact (c1_tenant_isolation_amended "a" "b" (by decide)).1 (fun _ => 1)
    (BM25Index.buildFromChunks false [⟨"apple apple", some "a", some "s"⟩])
    "apple" 10 (by decide) _ (by rw [heval]; exact List.mem_singleton.2 rfl)

/-- Helper: over the one-chunk corpus "apple banana", a search for "zebra"
(a token outside the corpus vocabulary, hence idf lookup `self.idf.get(q) or
0` yields 0 and the BM25 score is exactly 0 — also exact in floating point)
returns the chunk with score 0, whatever the library's idf table is. -/
theorem bm25_zero_score_returned (idf : String → ℚ) :
    BM25Index.search idf
      (BM25Index.buildFromChunks false [⟨"apple banana", none, none⟩])
      "zebra" 10 none
    = [⟨⟨"apple banana", none, none⟩, 0⟩] := by
  have h1 : pyTokenize "apple banana" = ["apple", "banana"] := by decide
  have h2 : pyTokenize "zebra" = ["zebra"] := by decide
  simp +decide [BM25Index.search, BM25Index.buildFromChunks, BM25Index.bm25GetScores,
    BM25Index.bm25ScoreDoc, BM25Index.bm25Vocab, BM25Index.bm25Scored,
    BM25Index.tenantSkip, List.insertionSort, List.orderedInsert, h1, h2]

/-- C3, counterexample: `BM25Index.search` has no non-positive-score filter.
Searching "zebra" over the corpus ["apple banana"] scores the single chunk
exactly 0 (non-positive), yet the chunk is returned — the claim requires the
returned list to be empty. -/
theorem c3_sparse_search_counterexample :
    BM25Index.search (fun _ => 0)
      (BM25Index.buildFromChunks false [⟨"apple banana", none, none⟩])
      "zebra" 10 none
    = [⟨⟨"apple banana", none, none⟩, 0⟩] :=
  bm25_zero_score_returned (fun _ => 0)

/-- C3, amended: `BM25Index.search` tokenizes the query, scores every
document, and returns the top_k tenant-eligible chunks ordered by descending
BM25 score — but chunks with non-positive score are **not** excluded: the
output is sorted descending, has at most `top_k` elements, contains only
tenant-eligible corpus chunks, and (when the corpus and the tokenized query
are non-empty) has exactly `min top_k (number of tenant-eligible chunks)`
elements regardless of the sign of their scores. -/
theorem c3_sparse_search_amended (idf : String → ℚ) (chunks : List Chunk)
    (prev : Bool) (query : String) (top_k : Nat) (uid : Option String) :
    List.Sorted (fun a b : BM25Result => b.bm25_score ≤ a.bm25_score)
      (BM25Index.search idf (BM25Index.buildFromChunks prev chunks) query top_k uid) ∧
    (BM25Index.search idf (BM25Index.buildFromChunks prev chunks) query top_k uid).length
      ≤ top_k ∧
    (∀ r ∈ BM25Index.search idf (BM25Index.buildFromChunks prev chunks) query top_k uid,
        r.chunk ∈ chunks ∧ BM25Index.tenantSkip uid r.chunk = false) ∧
    (chunks ≠ [] → pyTokenize query ≠ [] →
      (BM25Index.search idf (BM25Index.buildFromChunks prev chunks) query top_k uid).length
        = min top_k ((chunks.filter (fun c => !BM25Index.tenantSkip uid c)).length)) := by
  refine ⟨BM25Index.search_sorted _ _ _ _ _, ?_, ?_, ?_⟩
  · simp only [BM25Index.search]
    split
    · simp
    · split
      · simp
      · simp [List.length_take]
  · intro r hr
    have h := BM25Index.search_mem hr
    simpa [BM25Index.buildFromChunks] using h
  · intro hchunks hq
    have hha : (BM25Index.buildFromChunks prev chunks).hasBM25 = true := by
      simp [BM25Index.buildFromChunks, hchunks]
    have hce : (BM25Index.buildFromChunks prev chunks).corpus.isEmpty = false := by
      simp [BM25Index.buildFromChunks, hchunks]
    simp only [BM25Index.search, hha, hce, Bool.not_true, Bool.false_or,
      Bool.false_eq_true, if_false, List.isEmpty_iff]
    rw [if_neg hq]
    rw [List.length_map, List.length_take]
    congr 1
    rw [(List.perm_insertionSort (fun a b : ℚ × Chunk => b.1 ≤ a.1) _).length_eq]
    have hss : (BM25Index.bm25GetScores idf
        (BM25Index.buildFromChunks prev chunks).tokenized (pyTokenize query)).length
        = (BM25Index.buildFromChunks prev chunks).corpus.length := by
      simp [BM25Index.bm25GetScores, BM25Index.buildFromChunks]
    rw [BM25Index.bm25Scored_length hss]
    simp [BM25Index.buildFromChunks]

/-- C3 witness: at a concrete one-chunk corpus and query, the amended length
equation holds with both side conditions discharged. -/
theorem c3_sparse_search_witness :
    (BM25Index.search (fun _ => 1)
        (BM25Index.buildFromChunks false [⟨"apple apple", some "A", some "s"⟩])
        "apple" 10 none).length
      = min 10 (([⟨"apple apple", some "A", some "s"⟩] :
          List Chunk).filter (fun c => !BM25Index.tenantSkip none c)).length :=
  (c3_sparse_search_amended (fun _ => 1) [⟨"apple apple", some "A", some "s"⟩]
    false "apple" 10 none).2.2.2 (by decide) (by decide)

/-- C7, counterexample: the claim fails at tenant T = "".  After
`remove_by_source("doc1", user_id="")` nothing is removed from a corpus whose
only "doc1" chunk belongs to tenant "B" (the removal test compares `user_id`
exactly), while a subsequent search under T = "" skips the tenant filter
(truthiness guard) and returns that tenant-"B" chunk whose source is exactly
"doc1" — the claim requires zero such chunks. -/
theorem c7_sparse_remove_counterexample :
    (BM25Index.search (fun _ => 1)
        (BM25Index.removeBySource
          (BM25Index.buildFromChunks false [⟨"apple apple", some "B", some "doc1"⟩])
          "doc1" (some ""))
        "apple" 10 (some "")).map (fun r => r.chunk.source) = [some "doc1"] := by
  have h1 : pyTokenize "apple apple" = ["apple", "apple"] := by decide
  have h2 : pyTokenize "apple" = ["apple"] := by decide
  simp +decide [BM25Index.search, BM25Index.removeBySource, BM25Index.removeDrop,
    BM25Index.buildFromChunks, BM25Index.bm25GetScores,
    BM25Index.bm25ScoreDoc, BM25Index.bm25Vocab, BM25Index.bm25Scored,
    BM25Index.tenantSkip, List.insertionSort, List.orderedInsert, h1, h2]

/-- C7, amended: for a **non-empty** tenant id T, after
`remove_by_source(S, T)` every subsequent sparse search under T returns zero
chunks whose source is S, and the surviving corpus is exactly the original
corpus minus the chunks matching both S and T (chunks of other sources or
other tenants are untouched). -/
theorem c7_sparse_remove_amended (idf : String → ℚ) (st : BM25State)
    (S T : String) (hT : T ≠ "") (query : String) (top_k : Nat) :
    (∀ r ∈ BM25Index.search idf (BM25Index.removeBySource st S (some T))
        query top_k (some T), r.chunk.source ≠ some S) ∧
    (∀ c : Chunk, c ∈ (BM25Index.removeBySource st S (some T)).corpus ↔
        c ∈ st.corpus ∧ ¬(c.source = some S ∧ c.user_id = some T)) := by
  have hcorpus : (BM25Index.removeBySource st S (some T)).corpus
      = st.corpus.filter (fun c => !BM25Index.removeDrop S (some T) c) := by
    simp [BM25Index.removeBySource, BM25Index.buildFromChunks]
  constructor
  · intro r hr
    have h := BM25Index.search_mem hr
    have huser : r.chunk.user_id = some T := by
      have h2 := h.2
      simp only [BM25Index.tenantSkip, if_neg hT] at h2
      by_contra hne
      simp [hne] at h2
    have hmem := h.1
    rw [hcorpus] at hmem
    have hdrop := (List.mem_filter.1 hmem).2
    intro hsrc
    simp [BM25Index.removeDrop, hsrc, huser] at hdrop
  · intro c
    rw [hcorpus, List.mem_filter]
    simp only [BM25Index.removeDrop, Bool.not_eq_true']
    constructor
    · rintro ⟨hm, hd⟩
      refine ⟨hm, ?_⟩
      rintro ⟨hs, hu⟩
      simp [hs, hu] at hd
    · rintro ⟨hm, hd⟩
      refine ⟨hm, ?_⟩
      by_cases hs : c.source = some S
      · by_cases hu : c.user_id = some T
        · exact absurd ⟨hs, hu⟩ hd
        · simp [hs, hu]
      · simp [hs]

/-- C7 witness: a chunk from a different source survives removal of
source "doc1" for tenant "T1", and the post-removal search under "T1"
returns no "doc1" chunk — applied to the concrete single returned result. -/
theorem c7_sparse_remove_witness :
    (⟨⟨"apple apple", some "T1", some "doc2"⟩, 10/7⟩ : BM25Result).chunk.source
      ≠ some "doc1" := by
  have heval :
      BM25Index.search (fun _ => 1)
        (BM25Index.removeBySource
          (BM25Index.buildFromChunks false [⟨"apple apple", some "T1", some "doc2"⟩])
          "doc1" (some "T1"))
        "apple" 10 (some "T1")
      = [⟨⟨"apple apple", some "T1", some "doc2"⟩, 10/7⟩] := by
    have h1 : pyTokenize "apple apple" = ["apple", "apple"] := by decide
    have h2 : pyTokenize "apple" = ["apple"] := by decide
    simp +decide [BM25Index.search, BM25Index.removeBySource, BM25Index.removeDrop,
      BM25Index.buildFromChunks, BM25Index.bm25GetScores,
      BM25Index.bm25ScoreDoc, BM25Index.bm25Vocab, BM25Index.bm25Scored,
      BM25Index.tenantSkip, List.insertionSort, List.orderedInsert, h1, h2]
    norm_num
  exact (c7_sparse_remove_amended (fun _ => 1)
    (BM25Index.buildFromChunks false [⟨"apple apple", some "T1", some "doc2"⟩])
    "doc1" "T1" (by decide) "apple" 10).1 _ (by rw [heval]; exact List.mem_singleton.2 rfl)

namespace HybridRetriever

theorem entryScore_nil (key : String) : entryScore [] key = 0 := rfl

theorem entryScore_cons (e : RRFEntry) (es : List RRFEntry) (key : String) :
    entryScore (e :: es) key = if e.key = key then e.score else entryScore es key := by
  by_cases h : e.key = key
  · rw [if_pos h]
    unfold entryScore
    rw [List.find?_cons_of_pos _ (by simpa using h)]
    rfl
  · rw [if_neg h]
    unfold entryScore
    rw [List.find?_cons_of_neg _ (by simpa using h)]

theorem entryScore_rrfUpdate_self (es : List RRFEntry) (key : String) (v : ℚ)
    (it : RRFItem) :
    entryScore (rrfUpdate es key v it) key = entryScore es key + v := by
  induction es with
  | nil => simp [rrfUpdate, entryScore_cons, entryScore_nil]
  | cons e es ih =>
    by_cases he : e.key = key
    · simp [rrfUpdate, he, entryScore_cons]
    · simp [rrfUpdate, he, entryScore_cons, ih]

theorem entryScore_rrfUpdate_ne (es : List RRFEntry) {key key' : String}
    (h : key' ≠ key) (v : ℚ) (it : RRFItem) :
    entryScore (rrfUpdate es key v it) key' = entryScore es key' := by
  have hne : key ≠ key' := fun hh => h hh.symm
  induction es with
  | nil => simp [rrfUpdate, entryScore_cons, entryScore_nil, hne]
  | cons e es ih =>
    by_cases he : e.key = key
    · simp [rrfUpdate, he, entryScore_cons, hne]
    · simp only [rrfUpdate, if_neg he]
      rw [entryScore_cons, entryScore_cons, ih]

theorem keys_rrfUpdate (es : List RRFEntry) (key : String) (v : ℚ) (it : RRFItem) :
    (rrfUpdate es key v it).map (fun e => e.key)
      = if key ∈ es.map (fun e => e.key) then es.map (fun e => e.key)
        else es.map (fun e => e.key) ++ [key] := by
  induction es with
  | nil => simp [rrfUpdate]
  | cons e es ih =>
    by_cases he : e.key = key
    · simp [rrfUpdate, he]
    · have hne : ¬key = e.key := fun hh => he hh.symm
      simp only [rrfUpdate, if_neg he, List.map_cons, List.mem_cons, hne, false_or, ih]
      by_cases hm : key ∈ es.map (fun e => e.key)
      · simp [hm]
      · simp [hm]

theorem mem_keys_rrfUpdate {es : List RRFEntry} {key k0 : String} {v : ℚ}
    {it : RRFItem} :
    k0 ∈ (rrfUpdate es key v it).map (fun e => e.key)
      ↔ k0 ∈ es.map (fun e => e.key) ∨ k0 = key := by
  rw [keys_rrfUpdate]
  split
  · constructor
    · exact Or.inl
    · rintro (h | rfl)
      · exact h
      · assumption
  · simp

theorem nodup_keys_rrfUpdate {es : List RRFEntry} (h : (es.map (fun e => e.key)).Nodup)
    (key : String) (v : ℚ) (it : RRFItem) :
    ((rrfUpdate es key v it).map (fun e => e.key)).Nodup := by
  rw [keys_rrfUpdate]
  split
  · exact h
  · next hm => simp [List.nodup_append, h, hm]

theorem key_eq_item_key_rrfUpdate {es : List RRFEntry}
    (hinv : ∀ e ∈ es, e.key = e.item.key) {key : String} {it : RRFItem}
    (hit : key = it.key) (v : ℚ) :
    ∀ e ∈ rrfUpdate es key v it, e.key = e.item.key := by
  induction es with
  | nil =>
    intro e he
    simp only [rrfUpdate, List.mem_singleton] at he
    subst he
    exact hit
  | cons e' es ih =>
    intro e he
    by_cases h' : e'.key = key
    · simp only [rrfUpdate, if_pos h'] at he
      rcases List.mem_cons.1 he with rfl | hm
      · exact hinv e' (List.mem_cons_self _ _)
      · exact hinv e (List.mem_cons_of_mem _ hm)
    · simp only [rrfUpdate, if_neg h'] at he
      rcases List.mem_cons.1 he with rfl | hm
      · exact hinv e (List.mem_cons_self _ _)
      · exact ih (fun x hx => hinv x (List.mem_cons_of_mem _ hx)) e hm

theorem rrfUpdate_of_not_mem {es : List RRFEntry} {key : String}
    (h : key ∉ es.map (fun e => e.key)) (v : ℚ) (it : RRFItem) :
    rrfUpdate es key v it = es ++ [⟨key, v, it⟩] := by
  induction es with
  | nil => rfl
  | cons e es ih =>
    have h1 : e.key ≠ key := by
      intro hk
      exact h (by simp [hk])
    have h2 : key ∉ es.map (fun e => e.key) := fun hm => h (by simp [hm])
    simp [rrfUpdate, h1, ih h2]

end HybridRetriever

namespace HybridRetriever

theorem entryScore_rrfAddList (k : ℚ) (l : List RRFItem) (r : Nat)
    (es : List RRFEntry) (key : String) :
    entryScore (rrfAddList k l r es) key
      = entryScore es key + rrfContrib k key l r := by
  induction l generalizing r es with
  | nil => simp [rrfAddList, rrfContrib]
  | cons it rest ih =>
    simp only [rrfAddList, rrfContrib]
    rw [ih]
    by_cases hk : it.key = key
    · rw [if_pos hk, hk, entryScore_rrfUpdate_self]
      ring
    · rw [if_neg hk, entryScore_rrfUpdate_ne _ (fun hh => hk hh.symm)]
      ring

theorem mem_keys_rrfAddList {k : ℚ} {l : List RRFItem} {r : Nat}
    {es : List RRFEntry} {k0 : String} :
    k0 ∈ (rrfAddList k l r es).map (fun e => e.key)
      ↔ k0 ∈ es.map (fun e => e.key) ∨ k0 ∈ l.map RRFItem.key := by
  induction l generalizing r es with
  | nil => simp [rrfAddList]
  | cons it rest ih =>
    simp only [rrfAddList, List.map_cons, List.mem_cons, ih, mem_keys_rrfUpdate]
    tauto

theorem nodup_keys_rrfAddList {es : List RRFEntry}
    (h : (es.map (fun e => e.key)).Nodup) (k : ℚ) (l : List RRFItem) (r : Nat) :
    ((rrfAddList k l r es).map (fun e => e.key)).Nodup := by
  induction l generalizing r es with
  | nil => exact h
  | cons it rest ih => exact ih (nodup_keys_rrfUpdate h _ _ _) _

theorem key_eq_item_key_rrfAddList {es : List RRFEntry}
    (hinv : ∀ e ∈ es, e.key = e.item.key) (k : ℚ) (l : List RRFItem) (r : Nat) :
    ∀ e ∈ rrfAddList k l r es, e.key = e.item.key := by
  induction l generalizing r es with
  | nil => exact hinv
  | cons it rest ih =>
    exact ih (key_eq_item_key_rrfUpdate hinv rfl _) _

theorem score_of_mem_nodup {es : List RRFEntry}
    (h : (es.map (fun e => e.key)).Nodup) {e : RRFEntry} (he : e ∈ es) :
    e.score = entryScore es e.key := by
  induction es with
  | nil => simp at he
  | cons e' es ih =>
    rcases List.mem_cons.1 he with rfl | hm
    · simp [entryScore_cons]
    · have h' := List.nodup_cons.1 (by simp only [List.map_cons] at h; exact h)
      have hne : e'.key ≠ e.key := by
        intro hk
        exact h'.1 (hk ▸ List.mem_map_of_mem (fun x => x.key) hm)
      rw [entryScore_cons, if_neg hne]
      exact ih h'.2 hm

theorem filter_key_eq_nil {es : List RRFEntry} {key : String}
    (h : key ∉ es.map (fun e => e.key)) :
    es.filter (fun e => e.key == key) = [] := by
  induction es with
  | nil => rfl
  | cons e es ih =>
    have h1 : e.key ≠ key := by
      intro hk
      exact h (by simp [hk])
    have h2 : key ∉ es.map (fun e => e.key) := fun hm => h (by simp [hm])
    simp [List.filter_cons, h1, ih h2]

theorem length_filter_key_eq_one {es : List RRFEntry} {key : String}
    (h : (es.map (fun e => e.key)).Nodup) (hm : key ∈ es.map (fun e => e.key)) :
    (es.filter (fun e => e.key == key)).length = 1 := by
  induction es with
  | nil => simp at hm
  | cons e es ih =>
    have h' := List.nodup_cons.1 (by simp only [List.map_cons] at h; exact h)
    rcases List.mem_cons.1 (by simpa using hm : key ∈ e.key :: es.map (fun e => e.key))
      with rfl | hmm
    · rw [List.filter_cons, if_pos (by simp)]
      rw [filter_key_eq_nil h'.1]
      rfl
    · have hne : e.key ≠ key := by
        intro hk
        exact h'.1 (hk ▸ hmm)
      rw [List.filter_cons, if_neg (by simp [hne])]
      exact ih h'.2 hmm

theorem rrfContrib_of_not_mem {key : String} {l : List RRFItem}
    (h : key ∉ l.map RRFItem.key) (k : ℚ) (r : Nat) :
    rrfContrib k key l r = 0 := by
  induction l generalizing r with
  | nil => rfl
  | cons it rest ih =>
    have h1 : it.key ≠ key := by
      intro hk
      exact h (by simp [hk])
    have h2 : key ∉ rest.map RRFItem.key := fun hm => h (by simp [hm])
    simp [rrfContrib, h1, ih h2]

theorem rrfContrib_of_getElem {l : List RRFItem}
    (hnd : (l.map RRFItem.key).Nodup) {i : Nat} {x : RRFItem}
    (hx : l[i]? = some x) (k : ℚ) (r : Nat) :
    rrfContrib k x.key l r = 1 / (k + ((r + i : Nat) : ℚ)) := by
  induction l generalizing i r with
  | nil => simp at hx
  | cons it rest ih =>
    have h' := List.nodup_cons.1 (by simp only [List.map_cons] at hnd; exact hnd)
    cases i with
    | zero =>
      have hx0 : it = x := by simpa using hx
      subst hx0
      simp [rrfContrib, rrfContrib_of_not_mem h'.1]
    | succ i =>
      have hx' : rest[i]? = some x := by simpa using hx
      have hxm : x ∈ rest := by
        rcases List.getElem?_eq_some.1 hx' with ⟨hi, hg⟩
        exact hg ▸ List.getElem_mem _
      have hne : it.key ≠ x.key := by
        intro hk
        exact h'.1 (hk ▸ List.mem_map_of_mem RRFItem.key hxm)
      rw [rrfContrib, if_neg hne, ih h'.2 hx', zero_add]
      congr 1
      push_cast
      ring

theorem rrfAddList_of_fresh {l : List RRFItem} (hnd : (l.map RRFItem.key).Nodup)
    {es : List RRFEntry}
    (hdisj : ∀ k0 ∈ l.map RRFItem.key, k0 ∉ es.map (fun e => e.key))
    (k : ℚ) (r : Nat) :
    rrfAddList k l r es = es ++ rrfChain k l r := by
  induction l generalizing es r with
  | nil => simp [rrfAddList, rrfChain]
  | cons it rest ih =>
    have h' := List.nodup_cons.1 (by simp only [List.map_cons] at hnd; exact hnd)
    simp only [rrfAddList, rrfChain]
    rw [rrfUpdate_of_not_mem (hdisj it.key (by simp)) _ _]
    have hdisj' : ∀ k0 ∈ rest.map RRFItem.key,
        k0 ∉ (es ++ [(⟨it.key, 1 / (k + (r : ℚ)), it⟩ : RRFEntry)]).map
          (fun e => e.key) := by
      intro k0 hk0
      have h1 : k0 ∉ es.map (fun e => e.key) :=
        hdisj k0 (List.mem_cons_of_mem _ hk0)
      have h2 : k0 ≠ it.key := by
        intro hk
        exact h'.1 (hk ▸ hk0)
      simp [h1, h2]
    rw [ih h'.2 hdisj' (r + 1)]
    simp

theorem rrfChain_map_item (k : ℚ) (l : List RRFItem) (r : Nat) :
    (rrfChain k l r).map (fun e => e.item) = l := by
  induction l generalizing r with
  | nil => rfl
  | cons it rest ih => simp [rrfChain, ih]

theorem rrfChain_score_le {k : ℚ} (hk : 0 ≤ k) {l : List RRFItem} {r r' : Nat}
    (hr : 1 ≤ r) (hrr : r ≤ r') {e : RRFEntry} (he : e ∈ rrfChain k l r') :
    e.score ≤ 1 / (k + (r : ℚ)) := by
  induction l generalizing r' with
  | nil => simp [rrfChain] at he
  | cons it rest ih =>
    rcases List.mem_cons.1 he with rfl | hm
    · apply one_div_le_one_div_of_le
      · have : (1 : ℚ) ≤ (r : ℚ) := by exact_mod_cast hr
        linarith
      · have : (r : ℚ) ≤ (r' : ℚ) := by exact_mod_cast hrr
        linarith
    · exact ih (le_trans hrr (Nat.le_succ r')) hm

theorem rrfChain_sorted {k : ℚ} (hk : 0 ≤ k) (l : List RRFItem) {r : Nat}
    (hr : 1 ≤ r) :
    List.Sorted (fun a b : RRFEntry => b.score ≤ a.score) (rrfChain k l r) := by
  induction l generalizing r with
  | nil => simp [rrfChain]
  | cons it rest ih =>
    rw [rrfChain]
    refine List.sorted_cons.2 ⟨?_, ih (Nat.le_succ_of_le hr)⟩
    intro b hb
    exact rrfChain_score_le hk hr (Nat.le_succ r) hb

end HybridRetriever

namespace HybridRetriever

theorem fusion_out_eq (lists : List (List RRFItem)) (k : ℚ) :
    reciprocal_rank_fusion lists k
      = ((rrfEntries k lists).insertionSort (fun a b => b.score ≤ a.score)).map
          (fun e => (⟨e.item, e.score⟩ : FusedItem)) := rfl

/-- C6: fusing a dense result list `D` (distinct ids, as the dense index
returns) with an empty sparse result list returns exactly the items of `D` in
the same order — fusion degrades to dense-only ranking without error — and
fusing two empty lists returns the empty list. -/
theorem c6_fusion_empty_sparse (k : ℚ) (hk : 0 ≤ k) (D : List RRFItem)
    (hD : (D.map RRFItem.key).Nodup) :
    (reciprocal_rank_fusion [D, []] k).map (fun f => f.item) = D ∧
    reciprocal_rank_fusion [[], []] k = [] := by
  constructor
  · have hent : rrfEntries k [D, []] = rrfChain k D 1 := by
      have h0 : rrfEntries k [D, []] = rrfAddList k D 1 [] := rfl
      rw [h0, rrfAddList_of_fresh hD (by simp) k 1]
      simp
    rw [fusion_out_eq, hent]
    rw [List.Sorted.insertionSort_eq (rrfChain_sorted hk D le_rfl)]
    rw [List.map_map]
    simpa [Function.comp] using rrfChain_map_item k D 1
  · rfl

/-- C6 witness: a concrete two-element dense list fused with the empty sparse
list (k = 60, the source default) comes back unchanged. -/
theorem c6_fusion_empty_sparse_witness :
    (reciprocal_rank_fusion
        [[⟨some "a", "ta"⟩, ⟨some "b", "tb"⟩], []] 60).map (fun f => f.item)
      = [⟨some "a", "ta"⟩, ⟨some "b", "tb"⟩] :=
  (c6_fusion_empty_sparse 60 (by norm_num)
    [⟨some "a", "ta"⟩, ⟨some "b", "tb"⟩] (by decide)).1

/-- C5: for two result lists with per-list distinct ids and smoothing
constant `k ≥ 0`, an item whose id occurs at (1-based) ranks `i1+1` in the
first list and `i2+1` in the second appears exactly once in the fused output;
its fused score is `1/(k+(i1+1)) + 1/(k+(i2+1))` — the sum of the two
contributions, hence at least each single-list contribution (so at least
their max) — and the fused output is sorted by fused score descending. -/
theorem c5_fusion_dedup_sum (k : ℚ) (hk : 0 ≤ k) (l1 l2 : List RRFItem)
    (h1 : (l1.map RRFItem.key).Nodup) (h2 : (l2.map RRFItem.key).Nodup)
    (i1 i2 : Nat) (x1 x2 : RRFItem)
    (hx1 : l1[i1]? = some x1) (hx2 : l2[i2]? = some x2)
    (hkey : x2.key = x1.key) :
    ((reciprocal_rank_fusion [l1, l2] k).filter
        (fun f => f.item.key == x1.key)).length = 1 ∧
    (∀ f ∈ reciprocal_rank_fusion [l1, l2] k,
        f.item.key = x1.key →
          f.rrf_score = 1 / (k + ((i1 : ℚ) + 1)) + 1 / (k + ((i2 : ℚ) + 1)) ∧
          1 / (k + ((i1 : ℚ) + 1)) ≤ f.rrf_score ∧
          1 / (k + ((i2 : ℚ) + 1)) ≤ f.rrf_score) ∧
    List.Sorted (fun a b : FusedItem => b.rrf_score ≤ a.rrf_score)
      (reciprocal_rank_fusion [l1, l2] k) := by
  have hE : rrfEntries k [l1, l2] = rrfAddList k l2 1 (rrfAddList k l1 1 []) := rfl
  have hnd : ((rrfEntries k [l1, l2]).map (fun e => e.key)).Nodup := by
    rw [hE]
    exact nodup_keys_rrfAddList (nodup_keys_rrfAddList (by simp) k l1 1) k l2 1
  have hinv : ∀ e ∈ rrfEntries k [l1, l2], e.key = e.item.key := by
    rw [hE]
    exact key_eq_item_key_rrfAddList
      (key_eq_item_key_rrfAddList (by simp) k l1 1) k l2 1
  have hx1m : x1 ∈ l1 := by
    rcases List.getElem?_eq_some.1 hx1 with ⟨hi, hg⟩
    exact hg ▸ List.getElem_mem _
  have hscore : entryScore (rrfEntries k [l1, l2]) x1.key
      = 1 / (k + ((1 + i1 : Nat) : ℚ)) + 1 / (k + ((1 + i2 : Nat) : ℚ)) := by
    rw [hE, entryScore_rrfAddList, entryScore_rrfAddList, entryScore_nil, zero_add]
    rw [rrfContrib_of_getElem h1 hx1 k 1, ← hkey, rrfContrib_of_getElem h2 hx2 k 1]
  have hcast1 : ((1 + i1 : Nat) : ℚ) = (i1 : ℚ) + 1 := by push_cast; ring
  have hcast2 : ((1 + i2 : Nat) : ℚ) = (i2 : ℚ) + 1 := by push_cast; ring
  have hscore' : entryScore (rrfEntries k [l1, l2]) x1.key
      = 1 / (k + ((i1 : ℚ) + 1)) + 1 / (k + ((i2 : ℚ) + 1)) := by
    rw [hscore, hcast1, hcast2]
  have hi1 : (0 : ℚ) ≤ (i1 : ℚ) := Nat.cast_nonneg _
  have hi2 : (0 : ℚ) ≤ (i2 : ℚ) := Nat.cast_nonneg _
  have hpos1 : 0 < 1 / (k + ((i1 : ℚ) + 1)) := by
    apply one_div_pos.2
    linarith
  have hpos2 : 0 < 1 / (k + ((i2 : ℚ) + 1)) := by
    apply one_div_pos.2
    linarith
  have hperm := List.perm_insertionSort
    (fun a b : RRFEntry => b.score ≤ a.score) (rrfEntries k [l1, l2])
  refine ⟨?_, ?_, ?_⟩
  · rw [fusion_out_eq, List.filter_map, List.length_map]
    have hcongr : ((rrfEntries k [l1, l2]).insertionSort
          (fun a b => b.score ≤ a.score)).filter
        ((fun f : FusedItem => f.item.key == x1.key) ∘
          (fun e => (⟨e.item, e.score⟩ : FusedItem)))
      = ((rrfEntries k [l1, l2]).insertionSort
          (fun a b => b.score ≤ a.score)).filter (fun e => e.key == x1.key) := by
      apply List.filter_congr
      intro e he
      have heE := hperm.mem_iff.1 he
      simp [Function.comp, hinv e heE]
    rw [hcongr, (hperm.filter _).length_eq]
    apply length_filter_key_eq_one hnd
    rw [hE]
    apply mem_keys_rrfAddList.2
    apply Or.inl
    apply mem_keys_rrfAddList.2
    exact Or.inr (List.mem_map_of_mem RRFItem.key hx1m)
  · intro f hf hfk
    rw [fusion_out_eq] at hf
    obtain ⟨e, he, rfl⟩ := List.mem_map.1 hf
    have heE := hperm.mem_iff.1 he
    have hek : e.key = x1.key := (hinv e heE).trans hfk
    have hs : e.score = entryScore (rrfEntries k [l1, l2]) e.key :=
      score_of_mem_nodup hnd heE
    rw [hek, hscore'] at hs
    exact ⟨hs, by rw [hs]; linarith, by rw [hs]; linarith⟩
  · rw [fusion_out_eq]
    haveI : IsTotal RRFEntry (fun a b => b.score ≤ a.score) :=
      ⟨fun a b => le_total b.score a.score⟩
    haveI : IsTrans RRFEntry (fun a b => b.score ≤ a.score) :=
      ⟨fun _ _ _ hab hbc => le_trans hbc hab⟩
    have hs := List.sorted_insertionSort
      (fun a b : RRFEntry => b.score ≤ a.score) (rrfEntries k [l1, l2])
    exact hs.map _ (fun a b hab => hab)

/-- C5 witness: the same one-item list fused with itself at k = 60 yields
exactly one output entry for that id. -/
theorem c5_fusion_dedup_sum_witness :
    ((reciprocal_rank_fusion
        [[(⟨some "a", "t"⟩ : RRFItem)], [⟨some "a", "t"⟩]] 60).filter
      (fun f => f.item.key == (⟨some "a", "t"⟩ : RRFItem).key)).length = 1 :=
  (c5_fusion_dedup_sum 60 (by norm_num) [⟨some "a", "t"⟩] [⟨some "a", "t"⟩]
    (by decide) (by decide) 0 0 ⟨some "a", "t"⟩ ⟨some "a", "t"⟩ rfl rfl rfl).1

end HybridRetriever

/-- C4, counterexample: with no classification provider configured
(`client = false`), the query "hello" still hits the keyword pre-filter,
which runs **before** the missing-client check, so `classify` returns
GREETING with confidence 0.9 — not KNOWLEDGE with confidence ≤ 0.5 as the
claim requires for every query. -/
theorem c4_router_fallback_counterexample :
    (QueryRouter.classify false (.error "e") (.error "e") (.error "e")
        "hello" []).route_type = RouteType.GREETING ∧
    (QueryRouter.classify false (.error "e") (.error "e") (.error "e")
        "hello" []).confidence = 9/10 := by
  have hp : QueryRouter.keywordPrefilter "hello" =
      some (.GREETING, "Keyword match: greeting pattern") := by decide
  constructor
  · simp [QueryRouter.classify, hp]
  · simp [QueryRouter.classify, hp]

/-- C4, amended: when the classification provider is unavailable, `classify`
never throws (the embedding is a total function) and returns: the matched
route with confidence 0.9 when the keyword pre-filter fires, and KNOWLEDGE
with confidence 0.5 (≤ 0.5) otherwise — for every query, history, and
provider-response oracle. -/
theorem c4_router_fallback_amended (rewriteResp ccResp clsResp : Except String String)
    (query : String) (chat_history : List (String × String)) :
    (QueryRouter.classify false rewriteResp ccResp clsResp query
        chat_history).route_type
      = (match QueryRouter.keywordPrefilter query with
         | some rt => rt.1
         | none => RouteType.KNOWLEDGE) ∧
    (QueryRouter.classify false rewriteResp ccResp clsResp query
        chat_history).confidence
      = (match QueryRouter.keywordPrefilter query with
         | some _ => 9/10
         | none => 1/2) := by
  cases hp : QueryRouter.keywordPrefilter query with
  | some rt => constructor <;> simp [QueryRouter.classify, hp]
  | none =>
    by_cases hh : chat_history.isEmpty <;>
      constructor <;>
        simp [QueryRouter.classify, hp, hh, QueryRouter.classifyAndCorrect]

/-- C9, counterexample: the rewrite provider returns the query `" xy "`
verbatim (character-identical, hence identical ignoring case), yet the router
records `rewritten_query = some "xy"` instead of `None`: the response is
stripped before the case-insensitive comparison while the query is not, so a
query with surrounding whitespace defeats the no-op guard. -/
theorem c9_rewrite_noop_counterexample :
    pyLower " xy " = pyLower " xy " ∧
    (QueryRouter.classify true (.ok " xy ") (.ok "") (.ok "KNOWLEDGE")
        " xy " [("user", "h")]).rewritten_query = some "xy" :=
  ⟨rfl, by decide⟩

/-- C9, amended: whenever the rewrite provider's response, **after
stripping**, is empty or equals the input query ignoring case, the returned
`rewritten_query` is `None` (so callers fall back to the original query);
this covers the claim's situation whenever the query carries no surrounding
whitespace, since then a case-insensitive echo strips to a case-insensitive
match. -/
theorem c9_rewrite_noop_amended (client : Bool) (ccResp clsResp : Except String String)
    (query : String) (chat_history : List (String × String))
    (hh : chat_history ≠ []) (t : String)
    (ht : pyStrip t = "" ∨ pyLower (pyStrip t) = pyLower query) :
    (QueryRouter.classify client (.ok t) ccResp clsResp query
        chat_history).rewritten_query = none := by
  have hrw : QueryRouter.rewriteQuery client (.ok t) query chat_history = none := by
    unfold QueryRouter.rewriteQuery
    split
    · rfl
    · rcases ht with h | h <;> simp [h]
  cases hp : QueryRouter.keywordPrefilter query with
  | some rt => simp [QueryRouter.classify, hp]
  | none =>
    have hh' : chat_history.isEmpty = false := by simpa using hh
    cases clsResp with
    | ok c => cases client <;> simp [QueryRouter.classify, hp, hh', hrw]
    | error e => cases client <;> simp [QueryRouter.classify, hp, hh', hrw]

/-- C9 witness: a provider echo of the (whitespace-free) query "xy" is
treated as no rewrite. -/
theorem c9_rewrite_noop_witness :
    (QueryRouter.classify true (.ok "xy") (.ok "") (.ok "KNOWLEDGE")
        "xy" [("user", "h")]).rewritten_query = none :=
  c9_rewrite_noop_amended true (.ok "") (.ok "KNOWLEDGE") "xy" [("user", "h")]
    (by decide) "xy" (Or.inr (by decide))

/-- C8: when the rerank provider call raises (timeout, quota, malformed
response — the `.error` oracle), `rerank` does not raise (the embedding is
total) and returns exactly the first `top_k` input documents in input order;
in particular, if no input document carries a `rerank_score`, no returned
document does either. -/
theorem c8_rerank_fallback (documents : List RDoc) (top_k : Nat) (msg : String) :
    Reranker.rerank true (.error msg) documents top_k = documents.take top_k ∧
    ((∀ d ∈ documents, d.rerank_score = none) →
      ∀ d ∈ Reranker.rerank true (.error msg) documents top_k,
        d.rerank_score = none) := by
  have h : Reranker.rerank true (.error msg) documents top_k
      = documents.take top_k := by
    unfold Reranker.rerank
    split
    · rfl
    · rfl
  refine ⟨h, ?_⟩
  intro hnone d hd
  rw [h] at hd
  exact hnone d (List.take_subset _ _ hd)

/-- C8 witness: a two-document input with a raising provider comes back as
its first element, with no rerank score set. -/
theorem c8_rerank_fallback_witness :
    Reranker.rerank true (.error "timeout")
        [⟨"a", none, none⟩, ⟨"b", none, none⟩] 1
      = [(⟨"a", none, none⟩ : RDoc), ⟨"b", none, none⟩].take 1 ∧
    (⟨"a", none, none⟩ : RDoc).rerank_score = none := by
  refine ⟨(c8_rerank_fallback [⟨"a", none, none⟩, ⟨"b", none, none⟩] 1 "timeout").1, ?_⟩
  exact (c8_rerank_fallback [⟨"a", none, none⟩, ⟨"b", none, none⟩] 1 "timeout").2
    (by decide) _
    (by rw [(c8_rerank_fallback [⟨"a", none, none⟩, ⟨"b", none, none⟩] 1 "timeout").1]
        decide)
